import Mathlib

/-!
Shallow embedding of the comparison / plotting core of the hardware
experiment tracker: the numeric-column indexer, the series aligner, the
summary-statistics table (ComparisonPanel) and the plot projector
(PlotPanel).  Rows are JavaScript objects, modelled as association lists
from column name to value; a later binding of the same key shadows an
earlier one, which models JavaScript property assignment / spread
overriding.  JavaScript numbers are modelled as exact rationals; the
special values produced by empty aggregations (NaN from 0/0, the
infinities from Math.min / Math.max of an empty spread) are modelled by
the JSFloat type.
-/

/-- A cell value held in a data row: a number or a string. -/
inductive Value where
  | num (q : ℚ)
  | str (s : String)
deriving DecidableEq, Repr

/-- A data row: a JavaScript object, as an association list from column
name to value, in insertion order. -/
abbrev Row := List (String × Value)

/-- A chart record (a point of chartData or plotData): a JavaScript
object whose properties may also hold undefined (`some none` versus a
missing key) because the source assigns `row[metric]` even when the row
lacks the key. -/
abbrev Point := List (String × Option Value)

/-- Property read `obj[k]`: the value of the last binding of `k`
(later assignments shadow earlier ones), `none` when `k` is absent. -/
def lookupLast {α : Type} (k : String) : List (String × α) → Option α
  | [] => none
  | e :: rest =>
    match lookupLast k rest with
    | some v => some v
    | none => if e.1 = k then some e.2 else none

/-- `Object.prototype.hasOwnProperty.call(obj, k)`. -/
def hasKey {α : Type} (k : String) (l : List (String × α)) : Bool :=
  l.any (fun e => e.1 == k)

/-- An experiment as the comparison core sees it: a display name and its
data rows (`exp.data`; an absent `data` field behaves exactly like zero
rows in every guard of the source, so it is modelled as `[]`). -/
structure Dataset where
  name : String
  rows : List Row
deriving DecidableEq, Repr

/-- The filter applied by chartData, by the Line stroke assignment and by
the summary-statistics table (ComparisonPanel.tsx lines 48, 263, 301):
`exp.data && exp.data.length > 0 && hasOwnProperty(exp.data[0], m)`. -/
def contributes (m : String) (d : Dataset) : Bool :=
  match d.rows with
  | [] => false
  | r :: _ => hasKey m r

/-- True when the first row of `d` holds the key `m` with a value of
numeric type.  Modelled from the spec's glossary words for "contributing
dataset" ("a dataset whose first row contains the requested metric with a
numeric value"), to be compared against the source's `contributes`. -/
def firstRowNumeric (m : String) (d : Dataset) : Bool :=
  match d.rows with
  | [] => false
  | r :: _ =>
    match lookupLast m r with
    | some (Value.num _) => true
    | _ => false

/-- `typeof o === 'number'` on a property read result. -/
def isNumVal : Option Value → Bool
  | some (Value.num _) => true
  | _ => false

/-- `typeof row[m] === 'number'` for a whole row: does the row hold a
numeric value at column `m`? -/
def isNumAt (m : String) (r : Row) : Bool :=
  isNumVal (lookupLast m r)

/-- The SchemaIndexer (`availableColumns` in PlotPanel.tsx lines 25-32,
and the per-experiment branch of `allDataColumns` in ComparisonPanel.tsx
lines 29-41): `Object.keys(data[0]).filter(k => typeof data[0][k] ===
'number')`, and `[]` for zero rows. -/
def numericColumns (d : Dataset) : List String :=
  match d.rows with
  | [] => []
  | r :: _ => (r.map Prod.fst).filter (fun k => isNumVal (lookupLast k r))

/-- `Math.max(...lengths)` over the row counts of a list of datasets
(the source only evaluates it on a non-empty list, where the fold with
base 0 agrees with the spread form). -/
def maxRows (l : List Dataset) : ℕ :=
  l.foldr (fun d acc => max d.rows.length acc) 0

/-- One aligned record of chartData (ComparisonPanel.tsx lines 57-65):
`point = { index: i }` followed by `point[exp.name] = exp.data[i][m]` for
each filtered experiment with `i < exp.data.length`, in list order. -/
def pointAt (c : List Dataset) (m : String) (i : ℕ) : Point :=
  ("index", some (Value.num i)) ::
    (c.filter (fun d => i < d.rows.length)).map
      (fun d => (d.name, lookupLast m (d.rows.getD i [])))

/-- The SeriesAligner, `chartData` of ComparisonPanel.tsx lines 44-68:
empty when no metric is selected, otherwise the experiments are filtered
by `contributes`, and when any remain one record is emitted per index
below the maximal row count. -/
def alignSeries (L : List Dataset) (m : String) : List Point :=
  if m = "" then []
  else
    let c := L.filter (contributes m)
    if c.isEmpty then []
    else (List.range (maxRows c)).map (pointAt c m)

/-- Does the dataset name `n` appear as a key of some record of the
aligned output? -/
def appearsIn (n : String) (pts : List Point) : Bool :=
  pts.any (fun p => hasKey n p)

/-- A JavaScript double as produced by the statistics table: NaN (from
0/0 on an empty aggregation), the two infinities (Math.min / Math.max of
an empty spread), or a finite value, modelled exactly as a rational. -/
inductive JSFloat where
  | nan
  | posInf
  | negInf
  | fin (q : ℚ)
deriving DecidableEq, Repr

/-- `exp.data.map(row => row[m]).filter(v => typeof v === 'number')`
(ComparisonPanel.tsx line 303). -/
def keptValues (m : String) (d : Dataset) : List ℚ :=
  d.rows.filterMap (fun r =>
    match lookupLast m r with
    | some (Value.num q) => some q
    | _ => none)

/-- `Math.min(...values)`: positive infinity on an empty list. -/
def jsMin (l : List ℚ) : JSFloat :=
  match l with
  | [] => JSFloat.posInf
  | v :: vs => JSFloat.fin (vs.foldl min v)

/-- `Math.max(...values)`: negative infinity on an empty list. -/
def jsMax (l : List ℚ) : JSFloat :=
  match l with
  | [] => JSFloat.negInf
  | v :: vs => JSFloat.fin (vs.foldl max v)

/-- `values.reduce((s, v) => s + v, 0) / values.length`: NaN (0/0) on an
empty list. -/
def jsAvg (l : List ℚ) : JSFloat :=
  match l with
  | [] => JSFloat.nan
  | _ => JSFloat.fin (l.sum / l.length)

/-- The radicand of the standard deviation (ComparisonPanel.tsx line
307): `values.reduce((s, v) => s + Math.pow(v - avg, 2), 0) /
values.length`; NaN (0/0) on an empty list.  The source applies
`Math.sqrt` to this quantity; `Math.sqrt` is NaN exactly on NaN here
(the radicand is never negative), so every claim about the standard
deviation is settled on the radicand. -/
def stdDevSqOf (l : List ℚ) : JSFloat :=
  match l with
  | [] => JSFloat.nan
  | _ =>
    let a := l.sum / (l.length : ℚ)
    JSFloat.fin ((l.map (fun v => (v - a) ^ 2)).sum / l.length)

/-- One line of the summary-statistics table. -/
structure Summary where
  name : String
  count : ℕ
  min : JSFloat
  max : JSFloat
  avg : JSFloat
  stdDevSq : JSFloat
deriving DecidableEq, Repr

/-- The statistics computed for one filtered experiment
(ComparisonPanel.tsx lines 303-316). -/
def mkSummary (m : String) (d : Dataset) : Summary :=
  let values := keptValues m d
  ⟨d.name, values.length, jsMin values, jsMax values, jsAvg values,
    stdDevSqOf values⟩

/-- The StatisticsEngine, the summary-statistics table of
ComparisonPanel.tsx lines 300-319: one Summary per experiment passing the
`contributes` filter, in order. -/
def summarize (L : List Dataset) (m : String) : List Summary :=
  (L.filter (contributes m)).map (mkSummary m)

/-- One record of plotData (PlotPanel.tsx lines 41-46): the object
literal `{ index, [x]: row[x], [y]: row[y], ...row }`; the spread comes
last, so the row's own bindings shadow the three explicit ones. -/
def projectRow (x y : String) (i : ℕ) (r : Row) : Point :=
  ("index", some (Value.num i)) ::
    (x, lookupLast x r) ::
      (y, lookupLast y r) ::
        r.map (fun kv => (kv.1, some kv.2))

/-- The PlotProjector, `plotData` of PlotPanel.tsx lines 35-47: empty
when either axis is unselected (the empty string) or the dataset has no
rows (a zero-row experiment is excluded from `experimentsWithData`, so
the `find` fails and `[]` is returned); otherwise one record per row in
row order. -/
def projectPlot (d : Dataset) (x y : String) : List Point :=
  if x = "" ∨ y = "" ∨ d.rows.isEmpty then []
  else d.rows.enum.map (fun p => projectRow x y p.1 p.2)

/-- The fixed palette (ComparisonPanel.tsx line 70 and PlotPanel.tsx
line 50). -/
def colors : List String :=
  ["#2563EB", "#10B981", "#F59E0B", "#EF4444", "#8B5CF6", "#06B6D4"]

/-- `colors[i % colors.length]`, the stroke of the i-th rendered line
(ComparisonPanel.tsx line 269). -/
def strokeOf (i : ℕ) : String :=
  colors.getD (i % colors.length) ""

/-- The ColorAssigner: the Line elements of ComparisonPanel.tsx lines
262-273 map the filtered series list with its positional index to a
stroke. -/
def seriesColors (s : List String) : List (String × String) :=
  s.enum.map (fun p => (p.2, strokeOf p.1))

/-- Dataset X of the spec's concrete scenarios A and B. -/
def dX : Dataset :=
  ⟨"X", [[("t", Value.num 0), ("v", Value.num 1)],
         [("t", Value.num 1), ("v", Value.num 2)],
         [("t", Value.num 2), ("v", Value.num 3)]]⟩

/-- Dataset Y of the spec's concrete scenario A. -/
def dY : Dataset :=
  ⟨"Y", [[("t", Value.num 0), ("v", Value.num 5)],
         [("t", Value.num 1), ("v", Value.num 7)]]⟩

/-- A dataset whose first row holds the metric "v" with a string value:
it passes the source's presence filter but not the spec's numeric test. -/
def dStrA : Dataset := ⟨"A", [[("v", Value.str "x")]]⟩

/-- A two-row dataset holding only string values at "v". -/
def dStrA2 : Dataset := ⟨"A", [[("v", Value.str "x")], [("v", Value.str "x")]]⟩

/-- A one-row dataset numeric at "v". -/
def dNumA : Dataset := ⟨"A", [[("v", Value.num 1)]]⟩

/-- A one-row dataset named B, numeric at "v". -/
def dNumB : Dataset := ⟨"B", [[("v", Value.num 1)]]⟩

/-- First of two datasets sharing the display name N (two rows). -/
def dN1 : Dataset := ⟨"N", [[("v", Value.num 1)], [("v", Value.num 2)]]⟩

/-- Second of two datasets sharing the display name N (one row). -/
def dN2 : Dataset := ⟨"N", [[("v", Value.num 5)]]⟩

/-- A row that itself holds a column named "index". -/
def rIdx : Row := [("index", Value.num 5), ("a", Value.num 1), ("b", Value.num 2)]

/-- A dataset whose rows hold a column named "index". -/
def dIdx : Dataset := ⟨"D", [rIdx]⟩

/-- C8: for the spec's concrete scenario B, `summarize([X], "v")` yields
count 3, min 1, max 3, mean 2, and the population variance
((1-2)^2 + (2-2)^2 + (3-2)^2) / 3 (division by the total count 3, not by
count - 1) as the radicand handed to Math.sqrt. -/
theorem summarize_scenario_concrete :
    summarize [dX] "v" =
      [⟨"X", 3, JSFloat.fin 1, JSFloat.fin 3, JSFloat.fin 2,
        JSFloat.fin ((((1 : ℚ) - 2) ^ 2 + ((2 : ℚ) - 2) ^ 2 + ((3 : ℚ) - 2) ^ 2) / 3)⟩] := by
  simp [summarize, contributes, hasKey, mkSummary, keptValues, jsMin, jsMax,
    jsAvg, stdDevSqOf, dX, lookupLast, min_def, max_def]
  norm_num

/-- Reading a key appended behind bindings that resolve it: the later
bindings win. -/
theorem lookupLast_append_some {α : Type} {k : String} {v : α}
    {l₂ : List (String × α)} (l₁ : List (String × α))
    (h : lookupLast k l₂ = some v) : lookupLast k (l₁ ++ l₂) = some v := by
  induction l₁ with
  | nil => simpa using h
  | cons e t ih => simp [lookupLast, ih]

/-- Reading a key that the appended suffix does not resolve falls back to
the prefix. -/
theorem lookupLast_append_none {α : Type} {k : String}
    {l₂ : List (String × α)} (l₁ : List (String × α))
    (h : lookupLast k l₂ = none) : lookupLast k (l₁ ++ l₂) = lookupLast k l₁ := by
  induction l₁ with
  | nil => simpa using h
  | cons e t ih => simp [lookupLast, ih]

/-- Wrapping every value of a row in `some` (the object spread `...row`
inside a record literal) wraps the read result. -/
theorem lookupLast_map_wrap (k : String) (r : Row) :
    lookupLast k (r.map (fun kv => (kv.1, some kv.2))) = (lookupLast k r).map some := by
  induction r with
  | nil => simp [lookupLast]
  | cons e t ih =>
    simp only [List.map_cons, lookupLast, ih]
    cases h : lookupLast k t with
    | some v => simp
    | none => by_cases he : e.1 = k <;> simp [he]

/-- A key resolves exactly when the object holds it. -/
theorem lookupLast_isSome {α : Type} (k : String) (l : List (String × α)) :
    (lookupLast k l).isSome = hasKey k l := by
  induction l with
  | nil => rfl
  | cons e t ih =>
    simp only [lookupLast, hasKey, List.any_cons] at *
    cases h : lookupLast k t with
    | some v =>
      rw [h] at ih
      simp only [Option.isSome_some] at ih
      simp [h, ← ih]
    | none =>
      rw [h] at ih
      simp only [Option.isSome_none] at ih
      by_cases he : e.1 = k <;> simp [h, he, ← ih]

/-- A key reads as `none` exactly when the object lacks it. -/
theorem lookupLast_eq_none_iff {α : Type} (k : String) (l : List (String × α)) :
    lookupLast k l = none ↔ hasKey k l = false := by
  rw [← lookupLast_isSome, ← Option.not_isSome_iff_eq_none]
  cases (lookupLast k l).isSome <;> simp

/-- Key membership agrees with `Object.keys` membership. -/
theorem hasKey_iff_mem_keys {α : Type} (k : String) (l : List (String × α)) :
    hasKey k l = true ↔ k ∈ l.map Prod.fst := by
  simp only [hasKey, List.any_eq_true, List.mem_map, beq_iff_eq]

/-- Every member's row count is bounded by `maxRows`. -/
theorem le_maxRows {d : Dataset} {l : List Dataset} (h : d ∈ l) :
    d.rows.length ≤ maxRows l := by
  induction l with
  | nil => cases h
  | cons a t ih =>
    rcases List.mem_cons.mp h with rfl | ht
    · simp [maxRows]
    · simp only [maxRows, List.foldr_cons]
      exact le_trans (ih ht) (le_max_right _ _)

/-- Reading a series key out of the per-dataset slots: the last dataset
carrying that name wins. -/
theorem lookupLast_name_map {α : Type} (n : String) (g : Dataset → α)
    (l : List Dataset) :
    lookupLast n (l.map (fun d => (d.name, g d))) =
      ((l.filter (fun d => d.name == n)).getLast?).map g := by
  induction l using List.reverseRecOn with
  | nil => simp [lookupLast]
  | append_singleton t d ih =>
    rw [List.map_append, List.filter_append]
    by_cases he : d.name = n
    · rw [lookupLast_append_some (v := g d) _ (by simp [lookupLast, he])]
      simp [he, lookupLast, List.filter_cons]
    · rw [lookupLast_append_none _ (by simp [lookupLast, he]), ih]
      simp [he, List.filter_cons]

/-- Under distinct display names, filtering a dataset list by one
member's name yields exactly that member. -/
theorem filter_name_eq_of_nodup {l : List Dataset}
    (hnd : (l.map Dataset.name).Nodup) {d : Dataset} (hd : d ∈ l) :
    l.filter (fun e => e.name == d.name) = [d] := by
  induction l with
  | nil => cases hd
  | cons a t ih =>
    rw [List.map_cons, List.nodup_cons] at hnd
    rcases List.mem_cons.mp hd with rfl | ht
    · have hnil : t.filter (fun e => e.name == d.name) = [] := by
        rw [List.filter_eq_nil_iff]
        intro e he hne
        exact hnd.1 (List.mem_map.mpr ⟨e, he, beq_iff_eq.mp hne⟩ : d.name ∈ _)
      simp [List.filter_cons, hnil]
    · have hne : ¬ a.name = d.name := by
        intro he
        exact hnd.1 (he ▸ List.mem_map.mpr ⟨d, ht, rfl⟩)
      simp [List.filter_cons, hne, ih hnd.2 ht]

/-- Two members of a list with distinct display names sharing a name are
the same member. -/
theorem eq_of_name_eq_of_nodup {l : List Dataset}
    (hnd : (l.map Dataset.name).Nodup) {d e : Dataset}
    (hd : d ∈ l) (he : e ∈ l) (hn : e.name = d.name) : e = d := by
  have hf := filter_name_eq_of_nodup hnd hd
  have : e ∈ l.filter (fun x => x.name == d.name) :=
    List.mem_filter.mpr ⟨he, beq_iff_eq.mpr hn⟩
  rw [hf] at this
  simpa using this

/-- The kept-value list is as long as the numeric-typed row filter. -/
theorem keptValues_length (m : String) (d : Dataset) :
    (keptValues m d).length = (d.rows.filter (isNumAt m)).length := by
  obtain ⟨nm, rows⟩ := d
  simp only [keptValues]
  induction rows with
  | nil => simp
  | cons r t ih =>
    cases h : lookupLast m r with
    | none => simpa [List.filterMap_cons, List.filter_cons, isNumAt, isNumVal, h] using ih
    | some v =>
      cases v with
      | num q => simpa [List.filterMap_cons, List.filter_cons, isNumAt, isNumVal, h] using ih
      | str s => simpa [List.filterMap_cons, List.filter_cons, isNumAt, isNumVal, h] using ih

/-- C3 counterexample: the dataset A holds the metric "v" in its first
row with a string value, so it passes the table's filter with a kept
count of zero; its reported min is positive infinity (the value of
`Math.min()` with no arguments), not the NaN/undefined sentinel the claim
demands for every statistic field. -/
theorem summarize_zero_count_min_not_nan :
    (summarize [dStrA] "v").map Summary.min = [JSFloat.posInf] ∧
    (summarize [dStrA] "v").map Summary.count = [0] ∧
    JSFloat.posInf ≠ JSFloat.nan := by
  refine ⟨?_, ?_, by decide⟩ <;>
    simp [summarize, contributes, hasKey, mkSummary, keptValues, jsMin,
      dStrA, lookupLast]

/-- C3 amended: a dataset passing the table's first-row presence filter
whose kept-value count at the metric is zero reports mean and standard
deviation as the NaN sentinel (0/0), while min is positive infinity and
max is negative infinity (`Math.min()` / `Math.max()` of an empty
spread); no error is raised — the summary is a total value. -/
theorem summarize_zero_count_sentinels (L : List Dataset) (m : String)
    (s : Summary) (hs : s ∈ summarize L m) (h0 : s.count = 0) :
    s.min = JSFloat.posInf ∧ s.max = JSFloat.negInf ∧
      s.avg = JSFloat.nan ∧ s.stdDevSq = JSFloat.nan := by
  rcases List.mem_map.mp hs with ⟨d, _, rfl⟩
  have hk : keptValues m d = [] := by
    have : (keptValues m d).length = 0 := h0
    simpa using this
  simp [mkSummary, hk, jsMin, jsMax, jsAvg, stdDevSqOf]

/-- C3 witness: the amended statement holds at the dataset A whose only
row binds "v" to a string. -/
theorem summarize_zero_count_sentinels_witness :
    (mkSummary "v" dStrA).min = JSFloat.posInf ∧
      (mkSummary "v" dStrA).max = JSFloat.negInf ∧
      (mkSummary "v" dStrA).avg = JSFloat.nan ∧
      (mkSummary "v" dStrA).stdDevSq = JSFloat.nan :=
  summarize_zero_count_sentinels [dStrA] "v" (mkSummary "v" dStrA)
    (by simp [summarize, contributes, hasKey, dStrA, lookupLast])
    (by simp [mkSummary, keptValues, dStrA, lookupLast])

/-- C4: the i-th summary is computed from the i-th dataset passing the
filter; its count is the number of rows whose value at the metric has
numeric runtime type, and appending a row whose value at the metric is
not numeric (present-but-non-numeric or absent) changes no statistic
field at all — the row is excluded, not coerced. -/
theorem summarize_count_numeric (L : List Dataset) (m : String) (i : ℕ)
    (d : Dataset) (hd : (L.filter (contributes m))[i]? = some d) :
    (summarize L m)[i]? = some (mkSummary m d) ∧
    (mkSummary m d).count = (d.rows.filter (isNumAt m)).length ∧
    ∀ r : Row, isNumAt m r = false →
      mkSummary m ⟨d.name, d.rows ++ [r]⟩ = mkSummary m d := by
  refine ⟨?_, ?_, ?_⟩
  · simp [summarize, List.getElem?_map, hd]
  · exact keptValues_length m d
  · intro r hr
    have hnone : (match lookupLast m r with
        | some (Value.num q) => some q
        | _ => none : Option ℚ) = none := by
      simp only [isNumAt, isNumVal] at hr
      cases h : lookupLast m r with
      | none => simp
      | some v => cases v <;> simp_all
    have hkept : keptValues m ⟨d.name, d.rows ++ [r]⟩ = keptValues m d := by
      simp [keptValues, List.filterMap_append, hnone]
    simp [mkSummary, hkept]

/-- C4 witness: at the single dataset X and metric "v", the first summary
is X's, its count is 3, and appending a row holding a string at "v"
leaves the summary unchanged. -/
theorem summarize_count_numeric_witness :
    (summarize [dX] "v")[0]? = some (mkSummary "v" dX) ∧
    (mkSummary "v" dX).count = (dX.rows.filter (isNumAt "v")).length ∧
    mkSummary "v" ⟨dX.name, dX.rows ++ [[("v", Value.str "s")]]⟩ = mkSummary "v" dX := by
  have h := summarize_count_numeric [dX] "v" 0 dX (by decide)
  exact ⟨h.1, h.2.1, h.2.2 [("v", Value.str "s")] (by decide)⟩

/-- C5: a column is numeric exactly when the dataset is non-empty and the
first row's value there has numeric type; for zero rows the set is empty;
and appending any row to a non-empty dataset leaves the classification
unchanged (first-row-only schema inference). -/
theorem numericColumns_first_row_only (d : Dataset) :
    (∀ k, k ∈ numericColumns d ↔
      (d.rows ≠ [] ∧ isNumVal (lookupLast k (d.rows.headD [])) = true)) ∧
    (d.rows = [] → numericColumns d = []) ∧
    (d.rows ≠ [] → ∀ r' : Row,
      numericColumns ⟨d.name, d.rows ++ [r']⟩ = numericColumns d) := by
  obtain ⟨nm, rows⟩ := d
  cases rows with
  | nil => simp [numericColumns]
  | cons r t =>
    refine ⟨?_, by simp, ?_⟩
    · intro k
      simp only [numericColumns, List.mem_filter, List.headD_cons]
      constructor
      · rintro ⟨hk, hnum⟩
        exact ⟨by simp, hnum⟩
      · rintro ⟨-, hnum⟩
        refine ⟨?_, hnum⟩
        have hsome : (lookupLast k r).isSome = true := by
          cases hl : lookupLast k r with
          | none => rw [hl] at hnum; simp [isNumVal] at hnum
          | some v => simp
        rw [lookupLast_isSome] at hsome
        exact (hasKey_iff_mem_keys k r).mp hsome
    · intro _ r'
      rfl

/-- C5 witness: the characterization at dataset X and column "v", and the
append-invariance when a row binding "v" to a string is appended. -/
theorem numericColumns_first_row_only_witness :
    ("v" ∈ numericColumns dX ↔
      (dX.rows ≠ [] ∧ isNumVal (lookupLast "v" (dX.rows.headD [])) = true)) ∧
    numericColumns ⟨dX.name, dX.rows ++ [[("v", Value.str "s")]]⟩ = numericColumns dX :=
  ⟨(numericColumns_first_row_only dX).1 "v",
   (numericColumns_first_row_only dX).2.2 (by decide) [("v", Value.str "s")]⟩

/-- C9: the palette holds 6 colors; the i-th rendered series receives
exactly the palette entry at i mod 6, whatever the series list holds at
that position (the assignment is a pure function of the position alone);
palette entries at distinct residues differ, so moving a series to a
position with a different residue changes its color. -/
theorem colors_cyclic_assignment (s : List String) (i : ℕ) (hi : i < s.length) :
    colors.length = 6 ∧
    (seriesColors s)[i]? = some (s.getD i "", strokeOf i) ∧
    strokeOf i = colors.getD (i % 6) "" ∧
    (∀ j k : ℕ, j % 6 ≠ k % 6 → strokeOf j ≠ strokeOf k) := by
  refine ⟨rfl, ?_, rfl, ?_⟩
  · simp only [seriesColors, List.getElem?_map, List.getElem?_enum]
    rw [List.getElem?_eq_getElem hi]
    simp [List.getD, List.get?_eq_getElem?, List.getElem?_eq_getElem hi]
  · intro j k hjk
    have hbound : ∀ a < 6, ∀ b < 6, a ≠ b →
        colors.getD a "" ≠ colors.getD b "" := by decide
    have h6 : (0 : ℕ) < 6 := by norm_num
    have := hbound (j % 6) (Nat.mod_lt _ h6) (k % 6) (Nat.mod_lt _ h6) hjk
    simpa only [strokeOf, show colors.length = 6 from rfl] using this

/-- C9 witness: the assignment evaluated on the two-series list A, B at
position 0. -/
theorem colors_cyclic_assignment_witness :
    colors.length = 6 ∧
    (seriesColors ["A", "B"])[0]? = some ((["A", "B"] : List String).getD 0 "", strokeOf 0) ∧
    strokeOf 0 = colors.getD (0 % 6) "" ∧
    (∀ j k : ℕ, j % 6 ≠ k % 6 → strokeOf j ≠ strokeOf k) :=
  colors_cyclic_assignment ["A", "B"] 0 (by decide)

/-- A key resolved by the suffix of a record wins over the head. -/
theorem lookupLast_cons_some {α : Type} {k : String} {rest : List (String × α)}
    {w : α} (e : String × α) (h : lookupLast k rest = some w) :
    lookupLast k (e :: rest) = some w := by
  simp [lookupLast, h]

/-- A key the suffix does not resolve falls back to the head binding. -/
theorem lookupLast_cons_none {α : Type} {k : String} {rest : List (String × α)}
    (e : String × α) (h : lookupLast k rest = none) :
    lookupLast k (e :: rest) = if e.1 = k then some e.2 else none := by
  simp [lookupLast, h]

/-- Full description of reading any key out of a plotData record: the
spread row fields win, then the y binding, then the x binding, then the
positional index field. -/
theorem lookupLast_projectRow (k x y : String) (i : ℕ) (r : Row) :
    lookupLast k (projectRow x y i r) =
      if hasKey k r = true then (lookupLast k r).map some
      else if y = k then some (lookupLast y r)
      else if x = k then some (lookupLast x r)
      else if "index" = k then some (some (Value.num i))
      else none := by
  cases hk : lookupLast k r with
  | some v =>
    have hhk : hasKey k r = true := by rw [← lookupLast_isSome, hk]; rfl
    have hs : lookupLast k (r.map fun kv => (kv.1, some kv.2)) = some (some v) := by
      rw [lookupLast_map_wrap, hk]; rfl
    unfold projectRow
    rw [lookupLast_cons_some _ (lookupLast_cons_some _ (lookupLast_cons_some _ hs)),
      hhk, if_pos rfl]
    rfl
  | none =>
    have hhk : hasKey k r = false := (lookupLast_eq_none_iff k r).mp hk
    have hs : lookupLast k (r.map fun kv => (kv.1, some kv.2)) = none := by
      rw [lookupLast_map_wrap, hk]; rfl
    unfold projectRow
    rw [hhk]
    simp only [Bool.false_eq_true, if_false]
    by_cases hky : y = k
    · have h1 : lookupLast k ((y, lookupLast y r) ::
          r.map fun kv => (kv.1, some kv.2)) = some (lookupLast y r) := by
        rw [lookupLast_cons_none _ hs]
        simp [hky]
      rw [lookupLast_cons_some _ (lookupLast_cons_some _ h1), if_pos hky]
    · have h1 : lookupLast k ((y, lookupLast y r) ::
          r.map fun kv => (kv.1, some kv.2)) = none := by
        rw [lookupLast_cons_none _ hs]
        simp [hky]
      by_cases hkx : x = k
      · have h2 : lookupLast k ((x, lookupLast x r) ::
            (y, lookupLast y r) :: r.map fun kv => (kv.1, some kv.2)) =
            some (lookupLast x r) := by
          rw [lookupLast_cons_none _ h1]
          simp [hkx]
        rw [lookupLast_cons_some _ h2, if_neg hky, if_pos hkx]
      · have h2 : lookupLast k ((x, lookupLast x r) ::
            (y, lookupLast y r) :: r.map fun kv => (kv.1, some kv.2)) = none := by
          rw [lookupLast_cons_none _ h1]
          simp [hkx]
        rw [lookupLast_cons_none _ h2, if_neg hky, if_neg hkx]

/-- C6 counterexample: for the dataset D whose only row itself binds the
column "index" to 5, the first plotData record reads 5 at "index", not
the zero-based positional row index 0 — the spread row fields override
the positional index, so the record does not contain the zero-based row
index. -/
theorem projectPlot_index_not_positional :
    lookupLast "index" ((projectPlot dIdx "a" "b").headD []) =
      some (some (Value.num 5)) ∧
    Value.num 5 ≠ Value.num 0 := by
  constructor
  · decide
  · decide

/-- C6 amended: projectPlot is empty when an axis is unselected or the
dataset has no rows; otherwise it has one record per row in row order,
and each record reads back the row's x value, the row's y value and a
copy of every original row field; the "index" field holds the zero-based
row index provided neither axis is the literal column name "index" and
the row itself has no "index" column (a row's own "index" binding
overrides the positional one — see the counterexample). -/
theorem projectPlot_projection (d : Dataset) (x y : String) :
    ((x = "" ∨ y = "" ∨ d.rows = []) → projectPlot d x y = []) ∧
    (x ≠ "" → y ≠ "" →
      ((projectPlot d x y).length = d.rows.length ∧
       ∀ i r, d.rows[i]? = some r →
         (projectPlot d x y)[i]? = some (projectRow x y i r) ∧
         (x ≠ "index" → y ≠ "index" → hasKey "index" r = false →
           lookupLast "index" (projectRow x y i r) = some (some (Value.num i))) ∧
         lookupLast x (projectRow x y i r) = some (lookupLast x r) ∧
         lookupLast y (projectRow x y i r) = some (lookupLast y r) ∧
         (∀ k, hasKey k r = true →
           lookupLast k (projectRow x y i r) = some (lookupLast k r)))) := by
  constructor
  · intro h
    rcases h with h | h | h <;> simp [projectPlot, h]
  · intro hx hy
    by_cases hne : d.rows.isEmpty = true
    · have hrows : d.rows = [] := by
        cases h : d.rows with
        | nil => rfl
        | cons a t => rw [h] at hne; simp at hne
      refine ⟨by simp [projectPlot, hrows], ?_⟩
      intro i r hr
      rw [hrows] at hr
      simp at hr
    · have hplot : projectPlot d x y =
          d.rows.enum.map (fun p => projectRow x y p.1 p.2) := by
        simp [projectPlot, hx, hy, hne]
      refine ⟨by simp [hplot], ?_⟩
      intro i r hr
      refine ⟨?_, ?_, ?_, ?_, ?_⟩
      · rw [hplot]
        simp [List.getElem?_map, List.getElem?_enum, hr]
      · intro hxi hyi hki
        rw [lookupLast_projectRow, hki]
        simp only [Bool.false_eq_true, if_false]
        rw [if_neg hyi, if_neg hxi]
        simp
      · rw [lookupLast_projectRow]
        cases hhk : hasKey x r with
        | true =>
          obtain ⟨v, hv⟩ := Option.isSome_iff_exists.mp
            (by rw [lookupLast_isSome]; exact hhk)
          simp [hv]
        | false =>
          have hnone : lookupLast x r = none := (lookupLast_eq_none_iff x r).mpr hhk
          by_cases hyx : y = x
          · simp [hyx, hnone]
          · simp [hyx, hnone]
      · rw [lookupLast_projectRow]
        cases hhk : hasKey y r with
        | true =>
          obtain ⟨v, hv⟩ := Option.isSome_iff_exists.mp
            (by rw [lookupLast_isSome]; exact hhk)
          simp [hv]
        | false =>
          have hnone : lookupLast y r = none := (lookupLast_eq_none_iff y r).mpr hhk
          simp [hnone]
      · intro k hhk
        rw [lookupLast_projectRow, hhk]
        obtain ⟨v, hv⟩ := Option.isSome_iff_exists.mp
          (by rw [lookupLast_isSome]; exact hhk)
        simp [hv]

/-- C6 witness: the amended statement evaluated on dataset X with axes t
and v: one record per row, and the first record's index field is the
positional 0. -/
theorem projectPlot_projection_witness :
    (projectPlot dX "t" "v").length = dX.rows.length ∧
    lookupLast "index" (projectRow "t" "v" 0 (dX.rows.headD [])) =
      some (some (Value.num 0)) := by
  have h := (projectPlot_projection dX "t" "v").2 (by decide) (by decide)
  refine ⟨h.1, ?_⟩
  have h0 := h.2 0 (dX.rows.headD []) (by decide)
  exact h0.2.1 (by decide) (by decide) (by decide)

/-- C10: when a row itself holds a column named "index", the plotData
record for that row reads, at "index", the row's own value — the spread
`...row` comes after the positional index in the record literal and
overrides it. -/
theorem projectPlot_row_index_value (d : Dataset) (x y : String) (i : ℕ)
    (r : Row) (hx : x ≠ "") (hy : y ≠ "") (hr : d.rows[i]? = some r)
    (hk : hasKey "index" r = true) :
    (projectPlot d x y)[i]? = some (projectRow x y i r) ∧
    lookupLast "index" (projectRow x y i r) = some (lookupLast "index" r) := by
  constructor
  · have hne : d.rows.isEmpty = false := by
      cases hrows : d.rows with
      | nil => rw [hrows] at hr; simp at hr
      | cons a t => rfl
    have hplot : projectPlot d x y =
        d.rows.enum.map (fun p => projectRow x y p.1 p.2) := by
      simp [projectPlot, hx, hy, hne]
    rw [hplot]
    simp [List.getElem?_map, List.getElem?_enum, hr]
  · rw [lookupLast_projectRow, hk]
    obtain ⟨v, hv⟩ := Option.isSome_iff_exists.mp
      (by rw [lookupLast_isSome]; exact hk)
    simp [hv]

/-- C10 witness: the record of the single row of dataset D (which binds
"index" to 5) reads the row's own value at "index". -/
theorem projectPlot_row_index_value_witness :
    (projectPlot dIdx "a" "b")[0]? = some (projectRow "a" "b" 0 rIdx) ∧
    lookupLast "index" (projectRow "a" "b" 0 rIdx) =
      some (lookupLast "index" rIdx) :=
  projectPlot_row_index_value dIdx "a" "b" 0 rIdx (by decide) (by decide)
    (by decide) (by decide)

/-- Indexing an element-wise image of a range with a default. -/
theorem getD_range_map {β : Type} (f : ℕ → β) (nn i : ℕ) (b : β)
    (hi : i < nn) : ((List.range nn).map f).getD i b = f i := by
  simp [List.getD, List.get?_eq_getElem?, List.getElem?_map, List.getElem?_range hi]

/-- alignSeries with a selected metric and a non-empty filtered list is
the per-index record table. -/
theorem alignSeries_eq_map (L : List Dataset) (m : String) (hm : m ≠ "")
    (hce : (L.filter (contributes m)).isEmpty = false) :
    alignSeries L m = (List.range (maxRows (L.filter (contributes m)))).map
      (pointAt (L.filter (contributes m)) m) := by
  simp [alignSeries, hm, hce]

/-- alignSeries with a selected metric and an empty filtered list is
empty. -/
theorem alignSeries_eq_nil (L : List Dataset) (m : String) (hm : m ≠ "")
    (hce : (L.filter (contributes m)).isEmpty = true) :
    alignSeries L m = [] := by
  simp [alignSeries, hm, hce]

/-- C1 counterexample: dataset A's first row holds the metric "v" with a
string value, so A is outside the claim's numeric-first-row name set, yet
the name A appears in the output of alignSeries([A], "v") — the source
filters on key presence alone, so the two name sets differ. -/
theorem alignSeries_contains_nonnumeric_name :
    appearsIn "A" (alignSeries [dStrA] "v") = true ∧
    firstRowNumeric "v" dStrA = false := by
  constructor
  · decide
  · decide

/-- C1 amended: for a non-empty metric name, the dataset names appearing
in the output of alignSeries (any key other than the positional "index"
field) are exactly the names of the datasets with at least one row whose
first row contains the metric key — presence, regardless of the value's
type. -/
theorem alignSeries_name_set (L : List Dataset) (m n : String)
    (hm : m ≠ "") (hn : n ≠ "index") :
    appearsIn n (alignSeries L m) = true ↔
      n ∈ (L.filter (contributes m)).map Dataset.name := by
  cases hce : (L.filter (contributes m)).isEmpty with
  | true =>
    have hc : L.filter (contributes m) = [] := by
      cases h : L.filter (contributes m) with
      | nil => rfl
      | cons a t => rw [h] at hce; simp at hce
    rw [alignSeries_eq_nil L m hm hce, hc]
    simp [appearsIn]
  | false =>
    rw [alignSeries_eq_map L m hm hce]
    constructor
    · intro h
      simp only [appearsIn, List.any_eq_true] at h
      obtain ⟨p, hp, hkey⟩ := h
      obtain ⟨i, hi, rfl⟩ := List.mem_map.mp hp
      rw [hasKey_iff_mem_keys] at hkey
      simp only [pointAt, List.map_cons, List.map_map, List.mem_cons] at hkey
      rcases hkey with h1 | h2
      · exact absurd h1 hn
      · obtain ⟨d, hd, rfl⟩ := List.mem_map.mp h2
        exact List.mem_map.mpr ⟨d, (List.mem_filter.mp hd).1, rfl⟩
    · intro h
      obtain ⟨d, hd, rfl⟩ := List.mem_map.mp h
      have hdc := (List.mem_filter.mp hd).2
      have hrow : 0 < d.rows.length := by
        cases hr : d.rows with
        | nil => simp [contributes, hr] at hdc
        | cons a t => simp [hr]
      have h0 : 0 < maxRows (L.filter (contributes m)) :=
        lt_of_lt_of_le hrow (le_maxRows hd)
      simp only [appearsIn, List.any_eq_true]
      refine ⟨pointAt (L.filter (contributes m)) m 0,
        List.mem_map.mpr ⟨0, List.mem_range.mpr h0, rfl⟩, ?_⟩
      rw [hasKey_iff_mem_keys]
      simp only [pointAt, List.map_cons, List.map_map, List.mem_cons]
      right
      exact List.mem_map.mpr
        ⟨d, List.mem_filter.mpr ⟨hd, by simpa using hrow⟩, rfl⟩

/-- C1 witness: for the numeric one-row dataset A, the name A appears in
the aligned output exactly as it belongs to the filtered name list. -/
theorem alignSeries_name_set_witness :
    appearsIn "A" (alignSeries [dNumA] "v") = true ↔
      "A" ∈ ([dNumA].filter (contributes "v")).map Dataset.name :=
  alignSeries_name_set [dNumA] "v" "A" (by decide) (by decide)

/-- C2 counterexample: the two-row dataset A holds only strings at "v" and
the one-row dataset B holds a number there; under the claim's reading the
contributing subset is {B} with maximum row count 1, but the output of
alignSeries([A, B], "v") has 2 records. -/
theorem alignSeries_length_not_numeric_max :
    (alignSeries [dStrA2, dNumB] "v").length = 2 ∧
    maxRows ([dStrA2, dNumB].filter (firstRowNumeric "v")) = 1 := by
  constructor
  · decide
  · decide

/-- C2 amended: with the filter the source actually applies (first row
contains the metric key, whatever the value's type), and with distinct
display names none of which is the literal "index": the output is empty
when no dataset passes the filter, otherwise it has one record per index
below the maximal row count among the filtered datasets, and the record
at index i reads, under each filtered dataset's name, that dataset's
row-i value at the metric when i is below its row count and nothing
(an absent slot) otherwise. -/
theorem alignSeries_alignment (L : List Dataset) (m : String)
    (hm : m ≠ "")
    (hnd : ((L.filter (contributes m)).map Dataset.name).Nodup) :
    ((L.filter (contributes m)).isEmpty = true → alignSeries L m = []) ∧
    ((L.filter (contributes m)).isEmpty = false →
      (alignSeries L m).length = maxRows (L.filter (contributes m))) ∧
    (∀ d, d ∈ L.filter (contributes m) → d.name ≠ "index" →
      ∀ i, i < (alignSeries L m).length →
        lookupLast d.name ((alignSeries L m).getD i []) =
          if i < d.rows.length then some (lookupLast m (d.rows.getD i []))
          else none) := by
  refine ⟨fun hce => alignSeries_eq_nil L m hm hce, ?_, ?_⟩
  · intro hce
    rw [alignSeries_eq_map L m hm hce]
    simp
  · intro d hd hni i hi
    have hce : (L.filter (contributes m)).isEmpty = false := by
      cases h : L.filter (contributes m) with
      | nil => rw [h] at hd; simp at hd
      | cons a t => rfl
    rw [alignSeries_eq_map L m hm hce] at hi ⊢
    rw [List.length_map, List.length_range] at hi
    rw [getD_range_map _ _ _ _ hi]
    unfold pointAt
    by_cases hlen : i < d.rows.length
    · have hdf : d ∈ (L.filter (contributes m)).filter
          (fun e => i < e.rows.length) :=
        List.mem_filter.mpr ⟨hd, by simpa using hlen⟩
      have hndf : (((L.filter (contributes m)).filter
          (fun e => i < e.rows.length)).map Dataset.name).Nodup :=
        List.Nodup.sublist (List.Sublist.map _ (List.filter_sublist _)) hnd
      have hmap : lookupLast d.name (((L.filter (contributes m)).filter
          (fun e => i < e.rows.length)).map
            fun e => (e.name, lookupLast m (e.rows.getD i []))) =
          some (lookupLast m (d.rows.getD i [])) := by
        rw [lookupLast_name_map, filter_name_eq_of_nodup hndf hdf]
        rfl
      rw [lookupLast_cons_some _ hmap, if_pos hlen]
    · have hnil : (((L.filter (contributes m)).filter
          (fun e => i < e.rows.length)).filter
            (fun e => e.name == d.name)) = [] := by
        rw [List.filter_eq_nil_iff]
        intro e he hne
        have he1 : e ∈ L.filter (contributes m) := (List.mem_filter.mp he).1
        have he2 : i < e.rows.length := by
          simpa using (List.mem_filter.mp he).2
        have hed : e = d := eq_of_name_eq_of_nodup hnd hd he1 (beq_iff_eq.mp hne)
        rw [hed] at he2
        exact hlen he2
      have hmap : lookupLast d.name (((L.filter (contributes m)).filter
          (fun e => i < e.rows.length)).map
            fun e => (e.name, lookupLast m (e.rows.getD i []))) = none := by
        rw [lookupLast_name_map, hnil]
        rfl
      rw [lookupLast_cons_none _ hmap, if_neg hlen]
      exact if_neg (fun h => hni h.symm)

/-- C2 witness: the amended statement at the spec's scenario-A datasets X
(3 rows) and Y (2 rows): 3 records, with Y's slot absent at index 2. -/
theorem alignSeries_alignment_witness :
    (([dX, dY].filter (contributes "v")).isEmpty = false →
      (alignSeries [dX, dY] "v").length =
        maxRows ([dX, dY].filter (contributes "v"))) ∧
    lookupLast "X" ((alignSeries [dX, dY] "v").getD 2 []) =
      (if 2 < dX.rows.length then some (lookupLast "v" (dX.rows.getD 2 []))
       else none) ∧
    lookupLast "Y" ((alignSeries [dX, dY] "v").getD 2 []) =
      (if 2 < dY.rows.length then some (lookupLast "v" (dY.rows.getD 2 []))
       else none) := by
  have h := alignSeries_alignment [dX, dY] "v" (by decide) (by decide)
  exact ⟨h.2.1, h.2.2 dX (by decide) (by decide) 2 (by decide),
    h.2.2 dY (by decide) (by decide) 2 (by decide)⟩

/-- C7 counterexample: the datasets dN1 (2 rows) and dN2 (1 row) share
the display name N, dN2 occurring later; at index 1 the later dataset has
no row, so its write is skipped and the record still reads the EARLIER
dataset's value 2 under "N" — not the later dataset's (absent) slot as
the claim states for every index. -/
theorem alignSeries_dup_earlier_survives :
    ¬ (1 < dN2.rows.length) ∧
    lookupLast "N" ((alignSeries [dN1, dN2] "v").getD 1 []) =
      some (some (Value.num 2)) := by
  constructor
  · decide
  · decide

/-- C7 amended: at each record of the aligned output, the value read
under a name n is the slot written by the LAST dataset in list order that
passes the filter, has a row at that index, and is named n (last write
wins among the datasets that actually write); where the later of two
same-named datasets has no row, the earlier one's value survives. -/
theorem alignSeries_last_write (L : List Dataset) (m n : String) (i : ℕ)
    (hm : m ≠ "") (hn : n ≠ "index") (hi : i < (alignSeries L m).length) :
    lookupLast n ((alignSeries L m).getD i []) =
      ((((L.filter (contributes m)).filter (fun d => i < d.rows.length)).filter
          (fun d => d.name == n)).getLast?).map
        (fun d => lookupLast m (d.rows.getD i [])) := by
  cases hce : (L.filter (contributes m)).isEmpty with
  | true =>
    rw [alignSeries_eq_nil L m hm hce] at hi
    simp at hi
  | false =>
    rw [alignSeries_eq_map L m hm hce] at hi ⊢
    rw [List.length_map, List.length_range] at hi
    rw [getD_range_map _ _ _ _ hi]
    unfold pointAt
    cases hw : lookupLast n (((L.filter (contributes m)).filter
        (fun d => i < d.rows.length)).map
          fun d => (d.name, lookupLast m (d.rows.getD i []))) with
    | some v =>
      rw [lookupLast_cons_some _ hw]
      rw [lookupLast_name_map] at hw
      exact hw.symm
    | none =>
      rw [lookupLast_cons_none _ hw]
      rw [lookupLast_name_map] at hw
      rw [if_neg (fun h => hn h.symm)]
      exact hw.symm

/-- C7 witness: at index 0 both same-named datasets write, and the read
under N is the last writer's slot. -/
theorem alignSeries_last_write_witness :
    lookupLast "N" ((alignSeries [dN1, dN2] "v").getD 0 []) =
      (((([dN1, dN2].filter (contributes "v")).filter
          (fun d => 0 < d.rows.length)).filter
            (fun d => d.name == "N")).getLast?).map
        (fun d => lookupLast "v" (d.rows.getD 0 [])) :=
  alignSeries_last_write [dN1, dN2] "v" "N" 0 (by decide) (by decide)
    (by decide)
